import Mathlib

/-!
Verification of the core of the TidyFiles file organizer against its
natural-language specification.

The development shallowly embeds the relevant parts of the source:

* `tidyfiles/operations.py`: `get_folder_path`, `create_plans`,
  `transfer_files` (with its collision-resolution `while` loop) and
  `delete_dirs`;
* `tidyfiles/config.py`: the exclusion-set computation and the
  filesystem side effects of `get_settings` / `load_settings`.

Paths are modelled as lists of name components (a `Name` is a list of
characters, mirroring a Python string); the filesystem is a finite state:
an association list of regular files (with contents, so that overwriting
is observable) plus a list of directories.  Fallible operations take an
explicit failure oracle standing for the exceptions the Python code
catches, and external interference in the race window between the
collision check and the move is modelled by an explicit environment step.
-/

namespace TidyFiles

/-- A file or directory name, mirroring a Python string. -/
abbrev Name := List Char

/-- Shorthand to build a `Name` from a string literal. -/
def nm (s : String) : Name := s.data

/-- An absolute path, as its list of components from the root. -/
abbrev Path := List Name

/-- Python `p.is_relative_to(q)`: `q` equals `p` or is an ancestor of `p`,
i.e. the components of `q` are a prefix of those of `p`. -/
def is_relative_to (p q : Path) : Bool :=
  match q, p with
  | [], _ => true
  | _ :: _, [] => false
  | a :: as, b :: bs => a = b && is_relative_to bs as

/-- Last component of a path (Python `Path.name`); `[]` for the root. -/
def pathName : Path → Name
  | [] => []
  | a :: as =>
    match as with
    | [] => a
    | _ :: _ => pathName as

/-- Python `Path.with_name`: replace the last component. -/
def withName (p : Path) (n : Name) : Path := p.dropLast ++ [n]

/-- Longest run of characters from the front not containing a dot,
paired with the remainder (computed on the reversed name). -/
def spanNonDot : List Char → List Char × List Char
  | [] => ([], [])
  | c :: rest =>
    if c = '.' then ([], c :: rest)
    else (c :: (spanNonDot rest).1, (spanNonDot rest).2)

/-- Combination step of the stem/suffix split: `a` is the reversed run of
characters after the last dot and `r` the reversed remainder starting at
that dot, when one exists. -/
def splitExtCore (n : Name) (a r : List Char) : Name × Name :=
  match r with
  | [] => (n, [])
  | _ :: b =>
    if a.isEmpty || b.isEmpty then (n, [])
    else (b.reverse, '.' :: a.reverse)

/-- Python `PurePath` stem/suffix splitting of a file name: the suffix is
`'.'` followed by the part after the last dot, empty when the name has no
dot, starts with its only dot, or ends in a dot; the stem is the rest. -/
def splitExt (n : Name) : Name × Name :=
  splitExtCore n (spanNonDot n.reverse).1 (spanNonDot n.reverse).2

/-- Python `Path.stem` of a name. -/
def stemOf (n : Name) : Name := (splitExt n).1

/-- Python `Path.suffix` of a name. -/
def suffixOf (n : Name) : Name := (splitExt n).2

/-- Python `Path.suffix` of a path: suffix of its last component. -/
def pathSuffix (p : Path) : Name := suffixOf (pathName p)

/-- Filesystem state: regular files with contents (contents are abstract
tokens, present so that overwriting is observable) and directories. -/
structure FS where
  files : List (Path × Nat)
  dirs : List Path
  deriving DecidableEq

/-- First content stored for path `p` in an association list. -/
def lookupC (p : Path) : List (Path × Nat) → Option Nat
  | [] => none
  | (q, c) :: rest => if p = q then some c else lookupC p rest

/-- Membership of a path in a list of paths. -/
def memP (p : Path) : List Path → Bool
  | [] => false
  | q :: rest => if p = q then true else memP p rest

/-- Python `Path.is_file` on the model. -/
def FS.isFile (fs : FS) (p : Path) : Bool := (lookupC p fs.files).isSome

/-- Content of the regular file at `p`, if any. -/
def FS.content (fs : FS) (p : Path) : Option Nat := lookupC p fs.files

/-- Python `Path.is_dir` on the model. -/
def FS.isDir (fs : FS) (p : Path) : Bool := memP p fs.dirs

/-- Python `Path.exists` on the model. -/
def FS.exists_ (fs : FS) (p : Path) : Bool := fs.isFile p || fs.isDir p

/-- Every path present in the state, as one list. -/
def FS.allPaths (fs : FS) : List Path := fs.files.map (·.1) ++ fs.dirs

/-- All prefixes of a path, from the root down to the path itself. -/
def ancestorsOf : Path → List Path
  | [] => [[]]
  | a :: as => [] :: (ancestorsOf as).map (a :: ·)

/-- Python `Path.mkdir(parents=True, exist_ok=True)`: create the directory
and all its ancestors; existing entries are kept. -/
def FS.mkdirParents (fs : FS) (dir : Path) : FS :=
  { fs with
    dirs := (ancestorsOf dir).filter (fun q => !(memP q fs.dirs)) ++ fs.dirs }

/-- Python `Path.replace`: rename `src` to `dst`, silently replacing any
regular file already at `dst` (POSIX `os.replace` semantics). -/
def FS.replaceFile (fs : FS) (src dst : Path) : FS :=
  match lookupC src fs.files with
  | none => fs
  | some c =>
    { fs with
      files :=
        (dst, c) ::
          fs.files.filter (fun e => !(decide (e.1 = src)) && !(decide (e.1 = dst))) }

/-- Python `shutil.rmtree`: remove the directory and everything at or
below it. -/
def FS.rmtree (fs : FS) (d : Path) : FS :=
  { files := fs.files.filter (fun e => !(is_relative_to e.1 d)),
    dirs := fs.dirs.filter (fun q => !(is_relative_to q d)) }

/-!
Embedding of `tidyfiles/operations.py`.
-/

/-- Source `get_folder_path` (operations.py, lines 11-29): first folder of
the ordered cleaning plan whose extension list contains the file's suffix,
else the unrecognized-files folder. -/
def get_folder_path (file : Path) (cleaning_plan : List (Path × List Name))
    (unrecognized_file : Path) : Path :=
  match cleaning_plan with
  | [] => unrecognized_file
  | (folder_path, extensions) :: rest =>
    if pathSuffix file ∈ extensions then folder_path
    else get_folder_path file rest unrecognized_file

/-- Source `source_dir.rglob "*"` as used by `create_plans`: every
filesystem entry strictly below the source directory. -/
def rglob (fs : FS) (source_dir : Path) : List Path :=
  (fs.allPaths).filter
    (fun p => is_relative_to p source_dir && !(decide (p = source_dir)))

/-- Body of the `create_plans` loop (operations.py, lines 53-67) over a
given enumeration of filesystem objects: directories go to the deletion
plan, regular files are classified and paired with
`destination_folder / file.name`. -/
def create_plans_from (fs : FS) (objects : List Path)
    (cleaning_plan : List (Path × List Name)) (unrecognized_file : Path) :
    List (Path × Path) × List Path :=
  (objects.filterMap (fun p =>
      if fs.isDir p then none
      else if fs.isFile p then
        some (p, get_folder_path p cleaning_plan unrecognized_file ++ [pathName p])
      else none),
   objects.filterMap (fun p => if fs.isDir p then some p else none))

/-- Source `create_plans` (operations.py, lines 32-67).  The `excludes`
argument mirrors the `**kwargs` of the source signature, which swallows
the `excludes` entry of the settings dictionary: the body never reads
it. -/
def create_plans (fs : FS) (source_dir : Path)
    (cleaning_plan : List (Path × List Name)) (unrecognized_file : Path)
    (excludes : List Path) : List (Path × Path) × List Path :=
  create_plans_from fs (rglob fs source_dir) cleaning_plan unrecognized_file

/-- Next collision candidate (operations.py, lines 100-102):
`destination.with_name(f"{destination.stem}_{copy_number}{destination.suffix}")`,
where stem and suffix are recomputed from the current candidate. -/
def nextCandidate (destination : Path) (copy_number : Nat) : Path :=
  withName destination
    (stemOf (pathName destination) ++ '_' :: Nat.toDigits 10 copy_number ++
      suffixOf (pathName destination))

/-- The `while destination.exists()` loop of `transfer_files`
(operations.py, lines 98-103), run with explicit fuel; `resolveDestination`
supplies enough fuel for the loop to reach a free name. -/
def resolveLoop (fs : FS) : Nat → Path → Nat → Path
  | 0, destination, _ => destination
  | fuel + 1, destination, copy_number =>
    if fs.exists_ destination then
      resolveLoop fs fuel (nextCandidate destination copy_number) (copy_number + 1)
    else destination

/-- Effective destination of a move: the collision loop started at the
planned destination with `copy_number = 1`. -/
def resolveDestination (fs : FS) (destination : Path) : Path :=
  resolveLoop fs (fs.allPaths.length + 1) destination 1

/-- One iteration of the `transfer_files` loop (operations.py, lines
97-127) for the plan entry at index `i`.  `env` is the interference an
external agent may cause in the race window between the collision check
and the move (the identity when the run is alone on the filesystem);
`fail i = true` means the `source.replace` call at index `i` raises, as
the `except` branch allows.  A move also fails when the source is no
longer a regular file or a directory occupies the destination, mirroring
the exceptions `os.replace` raises in those cases. -/
def transferStep (env : Nat → FS → FS) (fail : Nat → Bool) (dry_run : Bool)
    (st : FS × Nat) (i : Nat) (entry : Path × Path) : FS × Nat :=
  let fs := st.1
  let destination := resolveDestination fs entry.2
  if dry_run then st
  else
    let fs1 := env i fs
    let fs2 := fs1.mkdirParents destination.dropLast
    if fail i || !(fs2.isFile entry.1) || fs2.isDir destination then (fs2, st.2)
    else (fs2.replaceFile entry.1 destination, st.2 + 1)

/-- The `for source, destination in transfer_plan` loop. -/
def transferLoop (env : Nat → FS → FS) (fail : Nat → Bool) (dry_run : Bool) :
    Nat → FS × Nat → List (Path × Path) → FS × Nat
  | _, st, [] => st
  | i, st, entry :: rest =>
    transferLoop env fail dry_run (i + 1)
      (transferStep env fail dry_run st i entry) rest

/-- Source `transfer_files` (operations.py, lines 70-142) with explicit
interference and failure oracles: final filesystem, number of files
moved, and total number of plan entries. -/
def transfer_files_env (env : Nat → FS → FS) (fail : Nat → Bool) (fs : FS)
    (transfer_plan : List (Path × Path)) (dry_run : Bool) : FS × Nat × Nat :=
  let st := transferLoop env fail dry_run 0 (fs, 0) transfer_plan
  (st.1, st.2, transfer_plan.length)

/-- Source `transfer_files` when nothing else touches the filesystem
during the run. -/
def transfer_files (fail : Nat → Bool) (fs : FS)
    (transfer_plan : List (Path × Path)) (dry_run : Bool) : FS × Nat × Nat :=
  transfer_files_env (fun _ s => s) fail fs transfer_plan dry_run

/-- One iteration of the `delete_dirs` loop (operations.py, lines
167-195): state is the filesystem, the `deleted_paths` set and the
success count; `fail i = true` means `shutil.rmtree` raises at index
`i`. -/
def deleteStep (fail : Nat → Bool) (dry_run : Bool)
    (st : FS × List Path × Nat) (i : Nat) (directory : Path) :
    FS × List Path × Nat :=
  let fs := st.1
  let deleted := st.2.1
  let cnt := st.2.2
  if deleted.any (fun q => is_relative_to directory q) then
    (fs, deleted, cnt + 1)
  else if dry_run then st
  else if fs.exists_ directory then
    if fail i then st
    else (fs.rmtree directory, directory :: deleted, cnt + 1)
  else st

/-- The `for directory in delete_plan` loop. -/
def deleteLoop (fail : Nat → Bool) (dry_run : Bool) :
    Nat → FS × List Path × Nat → List Path → FS × List Path × Nat
  | _, st, [] => st
  | i, st, d :: rest =>
    deleteLoop fail dry_run (i + 1) (deleteStep fail dry_run st i d) rest

/-- Source `delete_dirs` (operations.py, lines 145-210): final
filesystem, number of directories counted as deleted, and total number of
plan entries. -/
def delete_dirs (fail : Nat → Bool) (fs : FS) (delete_plan : List Path)
    (dry_run : Bool) : FS × Nat × Nat :=
  let st := deleteLoop fail dry_run 0 (fs, [], 0) delete_plan
  (st.1, st.2.2, delete_plan.length)

/-!
Embedding of `tidyfiles/config.py` (the exclusion-set computation and the
filesystem side effects of `get_settings`).
-/

/-- Resolved settings file path (config.py, lines 160-163): the settings
folder joined with the settings file name when a folder is configured,
else the bare file name. -/
def settingsFilePath (settings_folder_name : Option Path)
    (settings_file_name : Name) : Path :=
  match settings_folder_name with
  | some folder => folder ++ [settings_file_name]
  | none => [settings_file_name]

/-- Resolved log file path (config.py, lines 187-192): the log folder
joined with the log file name when a folder is configured, else the
destination directory joined with the log file name. -/
def logFilePath (log_folder_name : Option Path) (log_file_name : Name)
    (destination_dir : Path) : Path :=
  match log_folder_name with
  | some folder => folder ++ [log_file_name]
  | none => destination_dir ++ [log_file_name]

/-- Exclusion set built by `get_settings` (config.py, lines 194-196): the
user-supplied excludes plus the settings file path and the log file
path. -/
def get_settings_excludes (user_excludes : List Path)
    (settings_folder_name : Option Path) (settings_file_name : Name)
    (log_folder_name : Option Path) (log_file_name : Name)
    (destination_dir : Path) : List Path :=
  settingsFilePath settings_folder_name settings_file_name ::
    logFilePath log_folder_name log_file_name destination_dir ::
      user_excludes

/-- Default history (journal) file path: `history_folder_name` joined with
`history_file_name` from `DEFAULT_SETTINGS` (config.py, lines 27-28;
`get_default_history_file` in cli.py), i.e. `~/.tidyfiles/history.json`. -/
def defaultHistoryPath (home : Path) : Path :=
  home ++ [nm ".tidyfiles", nm "history.json"]

/-- Write a regular file with the given content, replacing any previous
entry at that path. -/
def FS.writeFile (fs : FS) (p : Path) (c : Nat) : FS :=
  { fs with files := (p, c) :: fs.files.filter (fun e => !(decide (e.1 = p))) }

/-- Source `load_settings` (config.py, lines 49-59) restricted to its
filesystem effect: when the settings file is missing, create its folder
and write a default settings file (content token `0`); then read the
file, raising (mapped to `RuntimeError`) when no regular file can be
read at that path. -/
def load_settings_fs (fs : FS) (settings_file_path : Path) :
    Except String FS :=
  let fs1 :=
    if fs.exists_ settings_file_path then fs
    else
      ((fs.mkdirParents settings_file_path.dropLast).writeFile
        settings_file_path 0)
  if fs1.isFile settings_file_path then .ok fs1
  else .error "Failed to load settings"

/-- Source `get_settings` (config.py, lines 106-127 and 165) restricted to
its validation and filesystem effects: validate the source directory,
validate and create the destination directory when one is given, then run
`load_settings` on the resolved settings file path. -/
def get_settings_fs (fs : FS) (source_dir : Path)
    (destination_dir : Option Path) (settings_file_path : Path) :
    Except String FS :=
  if !(fs.exists_ source_dir) then
    .error "Source directory does not exist"
  else if !(fs.isDir source_dir) then
    .error "Source path is not a directory"
  else
    match destination_dir with
    | some dest =>
      if fs.exists_ dest && !(fs.isDir dest) then
        .error "Destination path is not a directory"
      else load_settings_fs (fs.mkdirParents dest) settings_file_path
    | none => load_settings_fs fs settings_file_path

/-- The settings phase of the CLI `main` command (cli.py, lines 566-578):
`get_settings` runs before and independently of the dry-run branch, so its
`dry_run` argument is never consulted. -/
def cli_settings_phase (dry_run : Bool) (fs : FS) (source_dir : Path)
    (destination_dir : Option Path) (settings_file_path : Path) :
    Except String FS :=
  get_settings_fs fs source_dir destination_dir settings_file_path

/-!
Basic lemmas about the path and filesystem model.
-/

/-- A path is a member of a list exactly when `memP` says so. -/
theorem memP_iff {p : Path} : ∀ {l : List Path}, memP p l = true ↔ p ∈ l
  | [] => by simp [memP]
  | q :: rest => by
    by_cases h : p = q
    · simp [memP, h]
    · simp [memP, h, @memP_iff p rest]

/-- A lookup succeeds exactly when the key occurs in the list. -/
theorem lookupC_isSome_iff {p : Path} :
    ∀ {l : List (Path × Nat)}, (lookupC p l).isSome = true ↔ p ∈ l.map (·.1)
  | [] => by simp [lookupC]
  | (q, c) :: rest => by
    by_cases h : p = q
    · simp [lookupC, h]
    · simp [lookupC, h, @lookupC_isSome_iff p rest]

/-- An existing path is one of the paths of the state. -/
theorem exists_mem_allPaths {fs : FS} {p : Path} (h : fs.exists_ p = true) :
    p ∈ fs.allPaths := by
  rcases Bool.or_eq_true _ _ |>.mp h with hf | hd
  · exact List.mem_append_left _ (lookupC_isSome_iff.mp hf)
  · exact List.mem_append_right _ (memP_iff.mp hd)

/-- The two halves produced by `spanNonDot` reassemble to the input. -/
theorem spanNonDot_append : ∀ l : List Char,
    (spanNonDot l).1 ++ (spanNonDot l).2 = l
  | [] => rfl
  | c :: rest => by
    by_cases h : c = '.'
    · simp [spanNonDot, h]
    · simp [spanNonDot, h, spanNonDot_append rest]

/-- Stem and suffix lengths always sum to the length of the name. -/
theorem splitExt_length (n : Name) :
    (splitExt n).1.length + (splitExt n).2.length = n.length := by
  have hsp := spanNonDot_append n.reverse
  unfold splitExt splitExtCore
  cases hr : (spanNonDot n.reverse).2 with
  | nil => simp
  | cons c b =>
    by_cases he : (spanNonDot n.reverse).1.isEmpty || b.isEmpty
    · simp [he]
    · simp only [he, if_false]
      rw [hr] at hsp
      have : (spanNonDot n.reverse).1.length + (b.length + 1) = n.length := by
        have := congrArg List.length hsp
        simpa [List.length_append] using this
      simp [List.length_reverse]
      omega

/-- Last component of a path that ends with a known component. -/
theorem pathName_concat : ∀ (xs : Path) (n : Name), pathName (xs ++ [n]) = n
  | [], n => rfl
  | a :: as, n => by
    cases as with
    | nil => rfl
    | cons b bs => exact pathName_concat (b :: bs) n

/-- Length of the last component of a path. -/
def nameLen (p : Path) : Nat := (pathName p).length

/-- Each collision candidate has a strictly longer file name than the one
before it: the loop inserts the `_<n>` segment into the current name. -/
theorem nameLen_lt_nextCandidate (d : Path) (k : Nat) :
    nameLen d < nameLen (nextCandidate d k) := by
  unfold nameLen nextCandidate withName
  rw [pathName_concat]
  have h := splitExt_length (pathName d)
  simp only [stemOf, suffixOf] at *
  simp [List.length_append]
  omega

/-- Counting with a stronger predicate that some member fails strictly
lowers the count. -/
theorem countP_lt_of_mem {α : Type} (p q : α → Bool)
    (hmono : ∀ x, q x = true → p x = true) :
    ∀ (l : List α) (a : α), a ∈ l → p a = true → q a = false →
      l.countP q < l.countP p
  | [], a, ha, _, _ => absurd ha (List.not_mem_nil a)
  | x :: xs, a, ha, hpa, hqa => by
    rcases List.mem_cons.mp ha with rfl | ha
    · have hle : xs.countP q ≤ xs.countP p :=
        List.countP_mono_left (fun x _ hx => hmono x hx)
      simp [List.countP_cons, hqa, hpa]
      omega
    · have := countP_lt_of_mem p q hmono xs a ha hpa hqa
      have hif : (if q x then 1 else 0) ≤ (if p x then 1 else 0) := by
        by_cases hqx : q x = true
        · simp [hqx, hmono x hqx]
        · simp [Bool.eq_false_iff.mpr hqx]
      simp [List.countP_cons]
      omega

/-!
Termination and freshness of the collision-resolution loop.
-/

/-- Number of existing paths whose last component is at least as long as
the current candidate's: the loop's termination measure. -/
def collisionMeasure (fs : FS) (d : Path) : Nat :=
  fs.allPaths.countP (fun p => decide (nameLen d ≤ nameLen p))

/-- Whenever the current candidate is occupied, passing to the next
candidate strictly decreases the measure. -/
theorem collisionMeasure_step {fs : FS} {d : Path} (k : Nat)
    (h : fs.exists_ d = true) :
    collisionMeasure fs (nextCandidate d k) < collisionMeasure fs d := by
  apply countP_lt_of_mem
  · intro x hx
    have hx' := of_decide_eq_true hx
    exact decide_eq_true
      (le_trans (le_of_lt (nameLen_lt_nextCandidate d k)) hx')
  · exact exists_mem_allPaths h
  · exact decide_eq_true (le_refl _)
  · exact decide_eq_false (not_le_of_lt (nameLen_lt_nextCandidate d k))

/-- With fuel exceeding the measure, the collision loop ends at a free
path. -/
theorem resolveLoop_not_exists (fs : FS) :
    ∀ (fuel : Nat) (d : Path) (k : Nat), collisionMeasure fs d < fuel →
      fs.exists_ (resolveLoop fs fuel d k) = false
  | 0, d, k, h => absurd h (by omega)
  | fuel + 1, d, k, h => by
    unfold resolveLoop
    by_cases hex : fs.exists_ d = true
    · rw [if_pos hex]
      exact resolveLoop_not_exists fs fuel _ (k + 1)
        (by have := collisionMeasure_step k hex; omega)
    · rw [if_neg (by simp [hex])]
      exact Bool.eq_false_iff.mpr hex

/-- The effective destination chosen by `transfer_files` never names an
occupied path: the loop stops at the first free name. -/
theorem resolveDestination_not_exists (fs : FS) (d : Path) :
    fs.exists_ (resolveDestination fs d) = false := by
  apply resolveLoop_not_exists
  have := List.countP_le_length
    (fun p => decide (nameLen d ≤ nameLen p)) (l := fs.allPaths)
  unfold collisionMeasure
  omega

/-!
Behavioral lemmas about `transfer_files` and `delete_dirs`.
-/

/-- Creating directories never changes the regular files. -/
theorem content_mkdirParents (fs : FS) (d p : Path) :
    (fs.mkdirParents d).content p = fs.content p := rfl

/-- Filtering out two foreign keys leaves a lookup unchanged. -/
theorem lookupC_filter_ne {p a b : Path} (hpa : p ≠ a) (hpb : p ≠ b) :
    ∀ l : List (Path × Nat),
      lookupC p (l.filter (fun e => !(decide (e.1 = a)) && !(decide (e.1 = b)))) =
        lookupC p l
  | [] => rfl
  | (q, c) :: rest => by
    by_cases hqa : q = a
    · have hpq : p ≠ q := fun h => hpa (h.trans hqa)
      simp [List.filter, hqa, lookupC, hpq, hpa, hpb,
        lookupC_filter_ne hpa hpb rest]
    · by_cases hqb : q = b
      · have hpq : p ≠ q := fun h => hpb (h.trans hqb)
        simp [List.filter, hqa, hqb, lookupC, hpq, hpa, hpb,
          lookupC_filter_ne hpa hpb rest]
      · by_cases hpq : p = q
        · simp [List.filter, hqa, hqb, lookupC, hpq]
        · simp [List.filter, hqa, hqb, lookupC, hpq, lookupC_filter_ne hpa hpb rest]

/-- A rename leaves every uninvolved file untouched. -/
theorem content_replaceFile {fs : FS} {src dst p : Path}
    (hps : p ≠ src) (hpd : p ≠ dst) :
    (fs.replaceFile src dst).content p = fs.content p := by
  unfold FS.replaceFile
  cases h : lookupC src fs.files with
  | none => rfl
  | some c => simp [FS.content, lookupC, hpd, lookupC_filter_ne hps hpd fs.files]

/-- One undisturbed transfer step preserves the content of every file that
is not the entry's source: the effective destination is always free. -/
theorem transferStep_content (fail : Nat → Bool) (dry : Bool) (fs : FS)
    (cnt i : Nat) (entry : Path × Path) (p : Path) (c : Nat)
    (hc : fs.content p = some c) (hne : entry.1 ≠ p) :
    ((transferStep (fun _ s => s) fail dry (fs, cnt) i entry).1).content p =
      some c := by
  unfold transferStep
  by_cases hdry : dry
  · simpa [hdry] using hc
  · simp only [hdry, if_false]
    have hdest : fs.exists_ (resolveDestination fs entry.2) = false :=
      resolveDestination_not_exists fs entry.2
    have hpd : p ≠ resolveDestination fs entry.2 := by
      intro h
      rw [← h] at hdest
      have : fs.isFile p = true := by simp [FS.isFile, FS.content] at hc ⊢; simp [hc]
      simp [FS.exists_, this] at hdest
    by_cases hbr :
        (fail i || !((fs.mkdirParents (resolveDestination fs entry.2).dropLast).isFile entry.1) ||
          (fs.mkdirParents (resolveDestination fs entry.2).dropLast).isDir
            (resolveDestination fs entry.2)) = true
    · simpa [hbr] using hc
    · simp only [Bool.not_eq_true] at hbr
      simp only [hbr, Bool.false_eq_true, if_false]
      rw [content_replaceFile (Ne.symm hne) hpd]
      exact hc

/-- Along a whole undisturbed run, every file that is no entry's source
keeps its content. -/
theorem transferLoop_content (fail : Nat → Bool) (dry : Bool) :
    ∀ (plan : List (Path × Path)) (i : Nat) (fs : FS) (cnt : Nat)
      (p : Path) (c : Nat), fs.content p = some c → (∀ e ∈ plan, e.1 ≠ p) →
      ((transferLoop (fun _ s => s) fail dry i (fs, cnt) plan).1).content p =
        some c
  | [], _, _, _, _, _, hc, _ => hc
  | entry :: rest, i, fs, cnt, p, c, hc, hplan => by
    have hstep := transferStep_content fail dry fs cnt i entry p c hc
      (hplan entry (List.mem_cons_self entry rest))
    have hrest : ∀ e ∈ rest, e.1 ≠ p :=
      fun e he => hplan e (List.mem_cons_of_mem _ he)
    exact transferLoop_content fail dry rest (i + 1)
      (transferStep (fun _ s => s) fail dry (fs, cnt) i entry).1
      (transferStep (fun _ s => s) fail dry (fs, cnt) i entry).2 p c hstep hrest

/-- One transfer step raises the success count by at most one. -/
theorem transferStep_count_le (env : Nat → FS → FS) (fail : Nat → Bool)
    (dry : Bool) (st : FS × Nat) (i : Nat) (entry : Path × Path) :
    (transferStep env fail dry st i entry).2 ≤ st.2 + 1 := by
  unfold transferStep
  dsimp only
  split
  · exact Nat.le_succ _
  · split <;> simp

/-- The loop's final count is bounded by the starting count plus the
number of remaining entries. -/
theorem transferLoop_count_le (env : Nat → FS → FS) (fail : Nat → Bool)
    (dry : Bool) :
    ∀ (plan : List (Path × Path)) (i : Nat) (st : FS × Nat),
      (transferLoop env fail dry i st plan).2 ≤ st.2 + plan.length
  | [], _, _ => le_refl _
  | entry :: rest, i, st => by
    have h1 := transferStep_count_le env fail dry st i entry
    have h2 := transferLoop_count_le env fail dry rest (i + 1)
      (transferStep env fail dry st i entry)
    simp only [transferLoop, List.length_cons]
    omega

/-- In dry-run mode a transfer step is the identity on the state. -/
theorem transferStep_dry (env : Nat → FS → FS) (fail : Nat → Bool)
    (st : FS × Nat) (i : Nat) (entry : Path × Path) :
    transferStep env fail true st i entry = st := rfl

/-- In dry-run mode the whole transfer loop is the identity. -/
theorem transferLoop_dry (env : Nat → FS → FS) (fail : Nat → Bool) :
    ∀ (plan : List (Path × Path)) (i : Nat) (st : FS × Nat),
      transferLoop env fail true i st plan = st
  | [], _, _ => rfl
  | entry :: rest, i, st => by
    simp only [transferLoop, transferStep_dry]
    exact transferLoop_dry env fail rest (i + 1) st

/-- A skipped deletion step (entry below an already removed path) counts
the entry and leaves everything else alone. -/
theorem deleteStep_skip (fail : Nat → Bool) (dry : Bool) (fs : FS)
    (deleted : List Path) (cnt i : Nat) (d : Path)
    (h : ∃ q ∈ deleted, is_relative_to d q = true) :
    deleteStep fail dry (fs, deleted, cnt) i d = (fs, deleted, cnt + 1) := by
  have hany : deleted.any (fun q => is_relative_to d q) = true :=
    List.any_eq_true.mpr (by
      obtain ⟨q, hq, hrel⟩ := h
      exact ⟨q, hq, hrel⟩)
  simp [deleteStep, hany]

/-- In dry-run mode, starting from an empty removed-set, the deletion loop
is the identity. -/
theorem deleteLoop_dry (fail : Nat → Bool) :
    ∀ (plan : List Path) (i : Nat) (fs : FS) (cnt : Nat),
      deleteLoop fail true i (fs, [], cnt) plan = (fs, [], cnt)
  | [], _, _, _ => rfl
  | d :: rest, i, fs, cnt => by
    have hstep : deleteStep fail true (fs, [], cnt) i d = (fs, [], cnt) := by
      simp [deleteStep]
    simp only [deleteLoop, hstep]
    exact deleteLoop_dry fail rest (i + 1) fs cnt

/-!
Lemmas about the filesystem effects of `get_settings`.
-/

/-- A path is one of its own ancestors. -/
theorem mem_ancestorsOf_self : ∀ p : Path, p ∈ ancestorsOf p
  | [] => List.mem_singleton.mpr rfl
  | a :: as => by
    simp only [ancestorsOf, List.mem_cons]
    exact Or.inr (List.mem_map_of_mem (a :: ·) (mem_ancestorsOf_self as))

/-- Creating a directory makes it exist as a directory. -/
theorem isDir_mkdirParents_self (fs : FS) (d : Path) :
    (fs.mkdirParents d).isDir d = true := by
  unfold FS.mkdirParents FS.isDir
  apply memP_iff.mpr
  by_cases h : memP d fs.dirs = true
  · exact List.mem_append_right _ (memP_iff.mp h)
  · exact List.mem_append_left _
      (List.mem_filter.mpr ⟨mem_ancestorsOf_self d, by simp [h]⟩)

/-- Creating directories keeps every existing directory. -/
theorem isDir_mkdirParents_mono {fs : FS} {q : Path} (d : Path)
    (h : fs.isDir q = true) : (fs.mkdirParents d).isDir q = true := by
  unfold FS.mkdirParents FS.isDir at *
  exact memP_iff.mpr (List.mem_append_right _ (memP_iff.mp h))

/-- Writing a file does not change the directories. -/
theorem isDir_writeFile (fs : FS) (p : Path) (c : Nat) (q : Path) :
    (fs.writeFile p c).isDir q = fs.isDir q := rfl

/-- Creating directories does not change the regular files. -/
theorem isFile_mkdirParents (fs : FS) (d p : Path) :
    (fs.mkdirParents d).isFile p = fs.isFile p := rfl

/-- A just-written file exists with the written content. -/
theorem content_writeFile_self (fs : FS) (p : Path) (c : Nat) :
    (fs.writeFile p c).content p = some c := by
  simp [FS.writeFile, FS.content, lookupC]

/-- When `load_settings` returns, a regular settings file is in place. -/
theorem load_settings_ok_isFile {fs fs' : FS} {sfp : Path}
    (h : load_settings_fs fs sfp = .ok fs') : fs'.isFile sfp = true := by
  unfold load_settings_fs at h
  set fs1 := if fs.exists_ sfp then fs
    else ((fs.mkdirParents sfp.dropLast).writeFile sfp 0) with hfs1
  by_cases hg : fs1.isFile sfp = true
  · simp only [hg, if_true] at h
    injection h with heq
    exact heq ▸ hg
  · simp [hg] at h

/-- A successful `load_settings` keeps every existing directory. -/
theorem load_settings_ok_isDir {fs fs' : FS} {sfp q : Path}
    (hq : fs.isDir q = true) (h : load_settings_fs fs sfp = .ok fs') :
    fs'.isDir q = true := by
  unfold load_settings_fs at h
  set fs1 := if fs.exists_ sfp then fs
    else ((fs.mkdirParents sfp.dropLast).writeFile sfp 0) with hfs1
  have hq1 : fs1.isDir q = true := by
    rw [hfs1]
    by_cases hex : fs.exists_ sfp = true
    · simpa [hex] using hq
    · simp only [hex]
      simp only [Bool.false_eq_true, if_false]
      rw [isDir_writeFile]
      exact isDir_mkdirParents_mono _ hq
  by_cases hg : fs1.isFile sfp = true
  · simp only [hg, if_true] at h
    injection h with heq
    exact heq ▸ hq1
  · simp [hg] at h

/-- When the settings file was missing, a successful `load_settings`
created the settings folder and wrote the default settings file. -/
theorem load_settings_ok_write {fs fs' : FS} {sfp : Path}
    (hmiss : fs.isFile sfp = false) (h : load_settings_fs fs sfp = .ok fs') :
    fs'.isDir sfp.dropLast = true ∧ fs'.content sfp = some 0 := by
  unfold load_settings_fs at h
  by_cases hex : fs.exists_ sfp = true
  · simp only [hex, if_true] at h
    rw [hmiss] at h
    simp at h
  · simp only [hex] at h
    simp only [Bool.false_eq_true, if_false] at h
    have hfile : ((fs.mkdirParents sfp.dropLast).writeFile sfp 0).isFile sfp = true := by
      simp [FS.writeFile, FS.isFile, lookupC]
    rw [hfile] at h
    simp only [if_true] at h
    injection h with heq
    refine ⟨?_, ?_⟩
    · rw [← heq, isDir_writeFile]
      exact isDir_mkdirParents_self fs sfp.dropLast
    · rw [← heq]
      exact content_writeFile_self _ sfp 0

/-!
Concrete fixtures used by the claim theorems.
-/

/-- Folder holding the `report.pdf` fixtures. -/
def plannedReport : Path := [nm "d", nm "report.pdf"]

/-- State where only the planned destination is occupied. -/
def fsOneReport : FS :=
  { files := [([nm "d", nm "report.pdf"], 1)], dirs := [[nm "d"]] }

/-- State where the planned destination and the first renamed candidate
are both occupied, while `report_2.pdf` is free. -/
def fsTwoReports : FS :=
  { files := [([nm "d", nm "report.pdf"], 1), ([nm "d", nm "report_1.pdf"], 2)],
    dirs := [[nm "d"]] }

/-- Two distinct source files whose planned destinations collide. -/
def fsTwoFiles : FS := { files := [([nm "a"], 1), ([nm "b"], 2)], dirs := [] }

/-- Transfer plan sending both files to the same planned destination. -/
def twoFilePlan : List (Path × Path) :=
  [([nm "a"], [nm "d", nm "t.txt"]), ([nm "b"], [nm "d", nm "t.txt"])]

/-- Source tree with one excluded and one included subdirectory, each
holding a text file (the situation of `test_create_plans_with_excludes`). -/
def fsExcl : FS :=
  { files := [([nm "t", nm "excluded", nm "test.txt"], 1),
              ([nm "t", nm "included", nm "test.txt"], 2)],
    dirs := [[nm "t"], [nm "t", nm "excluded"], [nm "t", nm "included"]] }

/-- Cleaning plan mapping `.txt` to a documents folder. -/
def cpExcl : List (Path × List Name) := [([nm "t", nm "documents"], [nm ".txt"])]

/-- Fallback folder for the exclusion fixture. -/
def otherExcl : Path := [nm "t", nm "other"]

/-- Nested parent/child directories for the deletion fixtures. -/
def fsNested : FS := { files := [], dirs := [[nm "p"], [nm "p", nm "c"]] }

/-- Deletion plan listing the parent before the child. -/
def nestedPlan : List Path := [[nm "p"], [nm "p", nm "c"]]

/-- Source file and free destination for the race fixture. -/
def fsRace : FS := { files := [([nm "s"], 1)], dirs := [] }

/-- Destination path the external agent races for. -/
def raceDst : Path := [nm "d", nm "f.txt"]

/-- External interference creating a foreign file (content `99`) at the
chosen destination between the existence check and the move. -/
def raceEnv : Nat → FS → FS := fun _ fs => fs.writeFile raceDst 99

/-- Single-entry plan for the race fixture. -/
def racePlan : List (Path × Path) := [([nm "s"], raceDst)]

/-- State with a bystander file `z` next to a planned source `a`. -/
def fsKeep : FS := { files := [([nm "a"], 1), ([nm "z"], 7)], dirs := [] }

/-- Plan moving only `a`. -/
def keepPlan : List (Path × Path) := [([nm "a"], [nm "d", nm "t.txt"])]

/-- Home directory of the default-settings fixture. -/
def homePath : Path := [nm "home", nm "u"]

/-- Default `~/.tidyfiles` folder of the fixture. -/
def tidyDir : Path := [nm "home", nm "u", nm ".tidyfiles"]

/-- Source-only state for the `get_settings` fixture. -/
def fsSrc : FS := { files := [], dirs := [[nm "src"]] }

/-- Destination directory requested in the `get_settings` fixture. -/
def destW : Path := [nm "dest", nm "sub"]

/-- Resolved settings file path of the fixture. -/
def sfpW : Path := [nm "home", nm "u", nm ".tidyfiles", nm "settings.toml"]

/-!
Lemmas about the classifier.
-/

/-- When no rule's extension list holds the file's suffix, classification
falls back. -/
theorem get_folder_path_no_match (file : Path) (unrec : Path) :
    ∀ plan : List (Path × List Name), (∀ r ∈ plan, pathSuffix file ∉ r.2) →
      get_folder_path file plan unrec = unrec
  | [], _ => rfl
  | (folder, exts) :: rest, h => by
    have hni : pathSuffix file ∉ exts :=
      h (folder, exts) (List.mem_cons_self _ _)
    simp only [get_folder_path, hni, if_false]
    exact get_folder_path_no_match file unrec rest
      (fun r hr => h r (List.mem_cons_of_mem _ hr))

/-- The first rule whose extension list holds the file's suffix wins. -/
theorem get_folder_path_first_match (file : Path) (folder : Path)
    (exts : List Name) (post : List (Path × List Name)) (unrec : Path)
    (hin : pathSuffix file ∈ exts) :
    ∀ pre : List (Path × List Name), (∀ r ∈ pre, pathSuffix file ∉ r.2) →
      get_folder_path file (pre ++ (folder, exts) :: post) unrec = folder
  | [], _ => by simp [get_folder_path, hin]
  | (f', e') :: pre, h => by
    have hni : pathSuffix file ∉ e' := h (f', e') (List.mem_cons_self _ _)
    simp only [List.cons_append, get_folder_path, hni, if_false]
    exact get_folder_path_first_match file folder exts post unrec hin pre
      (fun r hr => h r (List.mem_cons_of_mem _ hr))

/-- A dot-free character list is returned whole by `spanNonDot`, with an
empty remainder. -/
theorem spanNonDot_no_dot : ∀ l : List Char, '.' ∉ l → spanNonDot l = (l, [])
  | [], _ => rfl
  | c :: rest, h => by
    have hc : ¬(c = '.') := fun hc => h (hc ▸ List.mem_cons_self c rest)
    have hr : '.' ∉ rest := fun hr => h (List.mem_cons_of_mem c hr)
    simp [spanNonDot, hc, spanNonDot_no_dot rest hr]

/-- A name without a dot has an empty suffix. -/
theorem suffixOf_no_dot {base : Name} (h : '.' ∉ base) : suffixOf base = [] := by
  have hrev : '.' ∉ base.reverse := fun hm => h (List.mem_reverse.mp hm)
  unfold suffixOf splitExt
  rw [spanNonDot_no_dot base.reverse hrev]
  rfl

/-!
Claim theorems.
-/

/-- C1 (counterexample).  With `report.pdf` and `report_1.pdf` occupied
and `report_2.pdf` free, the collision loop ends at `report_1_2.pdf`, not
at `report_2.pdf`: the loop recomputes the stem from the current
candidate, so the second collision appends to `report_1`, refuting the
claimed `report.pdf → report_1.pdf → report_2.pdf` chain. -/
theorem collision_suffix_counterexample :
    fsTwoReports.exists_ [nm "d", nm "report.pdf"] = true ∧
    fsTwoReports.exists_ [nm "d", nm "report_1.pdf"] = true ∧
    fsTwoReports.exists_ [nm "d", nm "report_2.pdf"] = false ∧
    resolveDestination fsTwoReports plannedReport =
      [nm "d", nm "report_1_2.pdf"] ∧
    resolveDestination fsTwoReports plannedReport ≠
      [nm "d", nm "report_2.pdf"] := by
  refine ⟨by decide, by decide, by decide, by decide, by decide⟩

/-- C1 (amended).  The collision loop always stops at the first name not
present on the filesystem; one collision for `report.pdf` yields
`report_1.pdf`, a second yields `report_1_2.pdf` (the `_<n>` segment is
inserted before the extension of the current candidate, whose stem
already carries the previous suffix); two distinct files whose planned
destinations collide end at two distinct final paths. -/
theorem collision_resolution :
    (∀ (fs : FS) (destination : Path),
        fs.exists_ (resolveDestination fs destination) = false) ∧
    resolveDestination fsOneReport plannedReport =
      [nm "d", nm "report_1.pdf"] ∧
    resolveDestination fsTwoReports plannedReport =
      [nm "d", nm "report_1_2.pdf"] ∧
    (transfer_files (fun _ => false) fsTwoFiles twoFilePlan false).2 = (2, 2) ∧
    ((transfer_files (fun _ => false) fsTwoFiles twoFilePlan false).1).content
      [nm "d", nm "t.txt"] = some 1 ∧
    ((transfer_files (fun _ => false) fsTwoFiles twoFilePlan false).1).content
      [nm "d", nm "t_1.txt"] = some 2 :=
  ⟨resolveDestination_not_exists, by decide, by decide, by decide, by decide,
    by decide⟩

/-- C2.  `create_plans` never reads its `excludes` argument (it is
swallowed by `**kwargs`): the plans are identical for any two exclusion
sets, and in the concrete tree of `test_create_plans_with_excludes` the
file below the excluded directory is planned for transfer and the
excluded directory itself is planned for deletion. -/
theorem create_plans_ignores_excludes :
    (∀ (fs : FS) (source_dir : Path) (cp : List (Path × List Name))
        (unrec : Path) (e₁ e₂ : List Path),
        create_plans fs source_dir cp unrec e₁ =
          create_plans fs source_dir cp unrec e₂) ∧
    ([nm "t", nm "excluded", nm "test.txt"],
        [nm "t", nm "documents", nm "test.txt"]) ∈
      (create_plans fsExcl [nm "t"] cpExcl otherExcl
        [[nm "t", nm "excluded"]]).1 ∧
    [nm "t", nm "excluded"] ∈
      (create_plans fsExcl [nm "t"] cpExcl otherExcl
        [[nm "t", nm "excluded"]]).2 ∧
    is_relative_to [nm "t", nm "excluded", nm "test.txt"]
      [nm "t", nm "excluded"] = true :=
  ⟨fun _ _ _ _ _ _ => rfl, by decide, by decide, by decide⟩

/-- C3.  With the dry-run flag set, `transfer_files` (under any external
interference and any failure oracle) and `delete_dirs` leave the
filesystem untouched and return `succeeded = 0` and
`total = len(plan)`. -/
theorem dry_run_purity (env : Nat → FS → FS) (fail : Nat → Bool) (fs : FS)
    (transfer_plan : List (Path × Path)) (delete_plan : List Path) :
    transfer_files_env env fail fs transfer_plan true =
      (fs, 0, transfer_plan.length) ∧
    transfer_files fail fs transfer_plan true =
      (fs, 0, transfer_plan.length) ∧
    delete_dirs fail fs delete_plan true = (fs, 0, delete_plan.length) := by
  refine ⟨?_, ?_, ?_⟩
  · unfold transfer_files_env
    rw [transferLoop_dry]
  · unfold transfer_files transfer_files_env
    rw [transferLoop_dry]
  · unfold delete_dirs
    rw [deleteLoop_dry]

/-- C4.  A deletion-plan entry equal to or nested under an
already-removed path is counted toward `succeeded` with the state left
untouched; on the concrete plan `[parent, parent/child]` with both
directories present, `delete_dirs` returns `(2, 2)` and afterwards
neither directory exists. -/
theorem delete_dirs_nested :
    (∀ (fail : Nat → Bool) (dry : Bool) (fs : FS) (deleted : List Path)
        (cnt i : Nat) (d : Path),
        (∃ q ∈ deleted, is_relative_to d q = true) →
        deleteStep fail dry (fs, deleted, cnt) i d = (fs, deleted, cnt + 1)) ∧
    (delete_dirs (fun _ => false) fsNested nestedPlan false).2 = (2, 2) ∧
    ((delete_dirs (fun _ => false) fsNested nestedPlan false).1).exists_
      [nm "p"] = false ∧
    ((delete_dirs (fun _ => false) fsNested nestedPlan false).1).exists_
      [nm "p", nm "c"] = false :=
  ⟨fun fail dry fs deleted cnt i d h =>
      deleteStep_skip fail dry fs deleted cnt i d h,
    by decide, by decide, by decide⟩

/-- C4 (witness).  The skip law applied to the concrete second step of
the `[parent, parent/child]` run. -/
theorem delete_dirs_nested_witness :
    deleteStep (fun _ => false) false (fsNested, [[nm "p"]], 1) 1
      [nm "p", nm "c"] = (fsNested, [[nm "p"]], 2) :=
  delete_dirs_nested.1 (fun _ => false) false fsNested [[nm "p"]] 1 1
    [nm "p", nm "c"] ⟨[nm "p"], by decide, by decide⟩

/-- C5 (counterexample).  Under the default settings (`~/.tidyfiles`
folders, `settings.toml`, `tidyfiles.log`, `history.json`), the exclusion
set built by `get_settings` is exactly the settings file path and the log
file path: the journal's own storage path `~/.tidyfiles/history.json` is
not in it. -/
theorem history_not_in_excludes_counterexample :
    get_settings_excludes [] (some tidyDir) (nm "settings.toml")
        (some tidyDir) (nm "tidyfiles.log") homePath =
      [[nm "home", nm "u", nm ".tidyfiles", nm "settings.toml"],
       [nm "home", nm "u", nm ".tidyfiles", nm "tidyfiles.log"]] ∧
    defaultHistoryPath homePath ∉
      get_settings_excludes [] (some tidyDir) (nm "settings.toml")
        (some tidyDir) (nm "tidyfiles.log") homePath := by
  refine ⟨by decide, by decide⟩

/-- C5 (amended).  The exclusion set built by `get_settings` always
contains the active settings file path and the log file path (not the
history file path). -/
theorem excludes_contains_settings_and_log (user : List Path)
    (sfolder : Option Path) (sfile : Name) (lfolder : Option Path)
    (lfile : Name) (dest : Path) :
    settingsFilePath sfolder sfile ∈
      get_settings_excludes user sfolder sfile lfolder lfile dest ∧
    logFilePath lfolder lfile dest ∈
      get_settings_excludes user sfolder sfile lfolder lfile dest := by
  unfold get_settings_excludes
  exact ⟨List.mem_cons_self _ _,
    List.mem_cons_of_mem _ (List.mem_cons_self _ _)⟩

/-- C6 (counterexample).  When an external agent creates a file (content
`99`) at the chosen destination between the existence check and the move,
`Path.replace` silently replaces it: the run counts the entry as a
success (`succeeded = 1`) and the foreign file's content is gone,
refuting "the move fails and is counted as a failure". -/
theorem race_overwrite_counterexample :
    resolveDestination fsRace raceDst = raceDst ∧
    (raceEnv 0 fsRace).exists_ raceDst = true ∧
    (raceEnv 0 fsRace).content raceDst = some 99 ∧
    (transfer_files_env raceEnv (fun _ => false) fsRace racePlan false).2.1
      = 1 ∧
    ((transfer_files_env raceEnv (fun _ => false) fsRace racePlan
        false).1).content raceDst = some 1 := by
  refine ⟨by decide, by decide, by decide, by decide, by decide⟩

/-- C6 (amended).  Absent external interference, `transfer_files` never
overwrites an existing file: every file present before the run that is
not one of the plan's sources keeps its content, because each effective
destination is chosen free at move time. -/
theorem transfer_files_no_overwrite (fail : Nat → Bool) (fs : FS)
    (plan : List (Path × Path)) (dry : Bool) (p : Path) (c : Nat)
    (hc : fs.content p = some c) (hp : ∀ e ∈ plan, e.1 ≠ p) :
    ((transfer_files fail fs plan dry).1).content p = some c := by
  have h := transferLoop_content fail dry plan 0 fs 0 p c hc hp
  simpa [transfer_files, transfer_files_env] using h

/-- C6 (witness).  The bystander file `z` keeps its content across a run
that moves `a`. -/
theorem transfer_files_no_overwrite_witness :
    ((transfer_files (fun _ => false) fsKeep keepPlan false).1).content
      [nm "z"] = some 7 :=
  transfer_files_no_overwrite (fun _ => false) fsKeep keepPlan false
    [nm "z"] 7 (by decide) (by decide)

/-- C7 (counterexample).  A file with no extension has suffix `""`, and
`"" in extensions` succeeds for a rule listing the empty string, so such
a file does match a rule instead of falling back. -/
theorem no_extension_rule_match_counterexample :
    pathSuffix [nm "README"] = nm "" ∧
    get_folder_path [nm "README"] [([nm "x"], [nm ""])] [nm "fb"] =
      [nm "x"] ∧
    ([nm "x"] : Path) ≠ [nm "fb"] := by
  refine ⟨by decide, by decide, by decide⟩

/-- C7 (amended).  `get_folder_path` returns the folder of the first rule
whose extension list contains the file's suffix (with its leading dot)
and the fallback when no rule does; a file whose name has no dot has the
empty suffix, so it falls back whenever no rule lists the empty string. -/
theorem get_folder_path_spec :
    (∀ (file : Path) (plan : List (Path × List Name)) (unrec : Path),
        (∀ r ∈ plan, pathSuffix file ∉ r.2) →
        get_folder_path file plan unrec = unrec) ∧
    (∀ (file : Path) (pre post : List (Path × List Name)) (folder : Path)
        (exts : List Name) (unrec : Path),
        (∀ r ∈ pre, pathSuffix file ∉ r.2) → pathSuffix file ∈ exts →
        get_folder_path file (pre ++ (folder, exts) :: post) unrec = folder) ∧
    (∀ (base : Name) (plan : List (Path × List Name)) (unrec : Path),
        '.' ∉ base → (∀ r ∈ plan, ([] : Name) ∉ r.2) →
        get_folder_path [base] plan unrec = unrec) := by
  refine ⟨?_, ?_, ?_⟩
  · exact fun file plan unrec h => get_folder_path_no_match file unrec plan h
  · exact fun file pre post folder exts unrec hpre hin =>
      get_folder_path_first_match file folder exts post unrec hin pre hpre
  · intro base plan unrec hdot hplan
    apply get_folder_path_no_match
    intro r hr
    have hsfx : pathSuffix [base] = [] := suffixOf_no_dot hdot
    rw [hsfx]
    exact hplan r hr

/-- C7 (witness).  First-match and fallback applied to a one-rule plan. -/
theorem get_folder_path_spec_witness :
    get_folder_path [nm "a.txt"] [([nm "docs"], [nm ".txt"])] [nm "fb"] =
      [nm "docs"] ∧
    get_folder_path [nm "a.xyz"] [([nm "docs"], [nm ".txt"])] [nm "fb"] =
      [nm "fb"] ∧
    get_folder_path [nm "README"] [([nm "docs"], [nm ".txt"])] [nm "fb"] =
      [nm "fb"] :=
  ⟨get_folder_path_spec.2.1 [nm "a.txt"] [] [([nm "docs"], [nm ".txt"])]
      [nm "docs"] [nm ".txt"] [nm "fb"]
      (fun r hr => absurd hr (List.not_mem_nil r)) (by decide),
    get_folder_path_spec.1 [nm "a.xyz"] [([nm "docs"], [nm ".txt"])]
      [nm "fb"] (by decide),
    get_folder_path_spec.2.2 (nm "README") [([nm "docs"], [nm ".txt"])]
      [nm "fb"] (by decide) (by decide)⟩

/-- C8.  `transfer_files` is a total function that processes the whole
plan: it returns `total = len(plan)` and `succeeded ≤ total`, for every
failure oracle, interference and dry-run flag. -/
theorem transfer_files_counts (env : Nat → FS → FS) (fail : Nat → Bool)
    (fs : FS) (transfer_plan : List (Path × Path)) (dry_run : Bool) :
    (transfer_files_env env fail fs transfer_plan dry_run).2.2 =
      transfer_plan.length ∧
    (transfer_files_env env fail fs transfer_plan dry_run).2.1 ≤
      transfer_plan.length := by
  constructor
  · rfl
  · have h := transferLoop_count_le env fail dry_run transfer_plan 0 (fs, 0)
    simpa [transfer_files_env] using h

/-- C9.  Replanning the same unchanged filesystem is deterministic up to
traversal order: any two enumerations of the tree that are permutations
of one another produce transfer and deletion plans that are permutations
of one another, hence identical as sets. -/
theorem create_plans_idempotent (fs : FS) (cp : List (Path × List Name))
    (unrec : Path) (o₁ o₂ : List Path) (h : o₁.Perm o₂) :
    (create_plans_from fs o₁ cp unrec).1.Perm
      (create_plans_from fs o₂ cp unrec).1 ∧
    (create_plans_from fs o₁ cp unrec).2.Perm
      (create_plans_from fs o₂ cp unrec).2 :=
  ⟨h.filterMap _, h.filterMap _⟩

/-- C9 (witness).  The deletion plans agree as sets across two sibling
orders of the same tree. -/
theorem create_plans_idempotent_witness :
    ((create_plans_from fsExcl
        [[nm "t", nm "excluded"], [nm "t", nm "included"]] cpExcl
        otherExcl).2).Perm
      ((create_plans_from fsExcl
        [[nm "t", nm "included"], [nm "t", nm "excluded"]] cpExcl
        otherExcl).2) :=
  (create_plans_idempotent fsExcl cpExcl otherExcl
    [[nm "t", nm "excluded"], [nm "t", nm "included"]]
    [[nm "t", nm "included"], [nm "t", nm "excluded"]] (by decide)).2

/-- C10.  `get_settings` mutates the filesystem before any plan executes,
and identically for every dry-run flag: when it succeeds, a requested
destination directory exists afterwards, the settings file exists, and if
the settings file was missing, the settings folder was created and a
default settings file written. -/
theorem get_settings_creates_state (dry_run : Bool) (fs : FS)
    (source_dir : Path) (destination_dir : Option Path) (sfp : Path)
    (fs' : FS)
    (h : cli_settings_phase dry_run fs source_dir destination_dir sfp =
      .ok fs') :
    (∀ b : Bool,
      cli_settings_phase b fs source_dir destination_dir sfp = .ok fs') ∧
    (∀ d, destination_dir = some d → fs'.isDir d = true) ∧
    fs'.isFile sfp = true ∧
    (fs.exists_ sfp = false →
      fs'.isDir sfp.dropLast = true ∧ fs'.content sfp = some 0) := by
  refine ⟨fun b => h, ?_⟩
  unfold cli_settings_phase get_settings_fs at h
  by_cases h1 : fs.exists_ source_dir = true
  · simp only [h1, Bool.not_true, Bool.false_eq_true, if_false] at h
    by_cases h2 : fs.isDir source_dir = true
    · simp only [h2, Bool.not_true, Bool.false_eq_true, if_false] at h
      cases hdst : destination_dir with
      | none =>
        rw [hdst] at h
        refine ⟨fun d hd => by simp at hd, load_settings_ok_isFile h, ?_⟩
        intro hmiss
        have hmf : fs.isFile sfp = false := by
          unfold FS.exists_ at hmiss
          simp only [Bool.or_eq_false_iff] at hmiss
          exact hmiss.1
        exact load_settings_ok_write hmf h
      | some d =>
        rw [hdst] at h
        by_cases h3 : (fs.exists_ d && !(fs.isDir d)) = true
        · simp [h3] at h
        · simp only [Bool.not_eq_true] at h3
          simp only [h3, Bool.false_eq_true, if_false] at h
          refine ⟨?_, load_settings_ok_isFile h, ?_⟩
          · intro d' hd'
            have hdd : d' = d := by
              injection hd' with hd''
              exact hd''.symm
            subst hdd
            exact load_settings_ok_isDir (isDir_mkdirParents_self fs d') h
          · intro hmiss
            have hmf : (fs.mkdirParents d).isFile sfp = false := by
              rw [isFile_mkdirParents]
              unfold FS.exists_ at hmiss
              simp only [Bool.or_eq_false_iff] at hmiss
              exact hmiss.1
            exact load_settings_ok_write hmf h
    · simp [h2] at h
  · simp [h1] at h

/-- C10 (witness).  A concrete successful call with a fresh destination
and a missing settings file: the destination directory exists, the
settings file exists with the default content. -/
theorem get_settings_creates_state_witness :
    ∃ fs' : FS,
      cli_settings_phase true fsSrc [nm "src"] (some destW) sfpW =
        .ok fs' ∧
      fs'.isDir destW = true ∧ fs'.isFile sfpW = true ∧
      fs'.content sfpW = some 0 := by
  have h : cli_settings_phase true fsSrc [nm "src"] (some destW) sfpW =
      .ok (((fsSrc.mkdirParents destW).mkdirParents
        sfpW.dropLast).writeFile sfpW 0) := by rfl
  have hth := get_settings_creates_state true fsSrc [nm "src"] (some destW)
    sfpW _ h
  exact ⟨_, h, hth.2.1 destW rfl, hth.2.2.1, (hth.2.2.2 (by decide)).2⟩

end TidyFiles
